import Mathlib

/-!
Verification development for the provider fallback/orchestration engine.

Shallow embedding of:
- `ProviderManagerClass.enhanceWithFallback` (provider-manager, aggregated variant),
- the chat orchestration loop and `enhanceWithProvider` (chat-handlers.ts),
- `PrivacyManagerClass.containsSensitiveData` (privacy-manager.ts), including the
  JavaScript semantics of `RegExp.prototype.test` on `g`-flagged patterns
  (the shared `lastIndex` state),
- `ConfigManagerClass.updateProvider` (config-manager.ts),
- `OllamaProvider.enhance` (ollama.ts).

Adapter network behaviour is abstracted by an oracle (`AttemptBehavior`): per loop
iteration it supplies the `isConfigured()` answer observed after `configure`
and the outcome of the `enhance` call (a result after a duration, an error after a
duration, or never resolving).  Time is a virtual clock in milliseconds advanced by
those durations, embedding `Date.now()` readings.
-/

namespace Explain

/-- `ProviderConfig` from shared/types.ts.  `priority` is a JS number used as an
integer; modelled as `Int`. -/
structure ProviderConfig where
  name : String
  apiKey : String
  model : String
  enabled : Bool
  priority : Int
deriving DecidableEq, Repr

/-- `TextChange` from shared/types.ts (unused by orchestration). -/
structure TextChange where
  kind : String
  original : String
  replacement : String
  position : Nat
deriving DecidableEq, Repr

/-- `Suggestion` from shared/types.ts; `confidence` is a JS float literal such as
`0.85`, modelled exactly as a rational. -/
structure Suggestion where
  text : String
  type : String
  confidence : Rat
  changes : Option (List TextChange)
deriving DecidableEq, Repr

/-- `EnhancementOptions` from shared/types.ts; `type` is one of six strings. -/
structure EnhancementOptions where
  type : String
  language : Option String
  context : Option String
  maxVariants : Option Nat
deriving DecidableEq, Repr

/-- `EnhancementResult` from shared/types.ts. -/
structure EnhancementResult where
  original : String
  suggestions : List Suggestion
  provider : String
  tokensUsed : Option Nat
  processingTime : Nat
deriving DecidableEq, Repr

/-- The local-inference backend name, `'Ollama (Local)'` in the source. -/
def localName : String := "Ollama (Local)"

/-- The fixed per-attempt timeout of `Promise.race` in `enhanceWithFallback`:
`setTimeout(..., 60000)`. -/
def timeoutMs : Nat := 60000

/-- Names of the adapter instances held by `ProviderManagerClass.providers`
(registration order).  The first instance is `OpenAIProviderWithChat`, whose
source file is not in the repository snapshot; its `name` field is modelled from
the spec's closed backend-name set (`PROVIDER_NAMES` in shared/constants.ts)
as `'OpenAI'`. -/
def registryNames : List String := ["OpenAI", "OpenRouter", "Anthropic", localName]

/-- `this.providers.get(name) !== undefined`. -/
def registryHas (name : String) : Bool := registryNames.contains name

/-- `ConfigManager.getProviderApiKey(name)`: first descriptor with that name,
its apiKey, else the empty string (`p?.apiKey ?? ''`). -/
def getProviderApiKey (config : List ProviderConfig) (name : String) : String :=
  (((config.find? (fun p => p.name == name)).map (fun p => p.apiKey))).getD ""

/-- The eligibility filter of `enhanceWithFallback`:
`c.enabled && (c.name === 'Ollama (Local)' || (c.apiKey !== undefined && c.apiKey.length > 0))`. -/
def eligible (c : ProviderConfig) : Bool :=
  c.enabled && (c.name == localName || decide (0 < c.apiKey.length))

/-- Stable insertion of a descriptor into a list already sorted by ascending
`priority`; the new element goes before the first element of equal or larger
priority, so earlier elements of the original list keep their place among
equal priorities. -/
def insertSorted (c : ProviderConfig) : List ProviderConfig → List ProviderConfig
  | [] => [c]
  | d :: ds => if c.priority ≤ d.priority then c :: d :: ds else d :: insertSorted c ds

/-- Embedding of `Array.prototype.sort((a, b) => a.priority - b.priority)`.
ES2019 requires `sort` to be stable, and a stable sort under a consistent
comparator has a unique result, so any stable implementation is a faithful
embedding; insertion sort is used. -/
def sortByPriority (l : List ProviderConfig) : List ProviderConfig :=
  l.foldr insertSorted []

/-- The eligible descriptors sorted ascending by priority (steps `.filter(...)` and
`.sort(...)` of `enhanceWithFallback`). -/
def sortedEligible (config : List ProviderConfig) : List ProviderConfig :=
  sortByPriority (config.filter eligible)

/-- The `ordered` candidate-name list of `enhanceWithFallback`
(`.filter(...).sort(...).map((c) => c.name)`). -/
def orderedCandidates (config : List ProviderConfig) : List String :=
  (sortedEligible config).map (fun c => c.name)

/-- Oracle outcome for one `provider.enhance(text, options)` call: resolves with a
result after `dur` ms, rejects with an error message after `dur` ms, or never
settles. -/
inductive Outcome where
  | ok (r : EnhancementResult) (dur : Nat)
  | err (msg : String) (dur : Nat)
  | hang
deriving DecidableEq

/-- Oracle for one loop iteration: the `provider.isConfigured()` answer observed
after the `configure` call, and the behaviour of the `enhance` call if reached. -/
structure AttemptBehavior where
  isConfiguredAfter : Bool
  outcome : Outcome
deriving DecidableEq

/-- Result of the `Promise.race` between `enhance` and the 60 s timer, with the
virtual time at which the race settles. -/
inductive RaceResult where
  | done (r : EnhancementResult) (endT : Nat)
  | failed (msg : String) (endT : Nat)
deriving DecidableEq

/-- `Promise.race([provider.enhance(...), timeout(60000)])` started at time `t`:
whichever settles first wins; the timer rejects with `'Request timeout'`. -/
def raceWithTimeout (t : Nat) : Outcome → RaceResult
  | .ok r dur => if dur < timeoutMs then .done r (t + dur) else .failed "Request timeout" (t + timeoutMs)
  | .err m dur => if dur < timeoutMs then .failed m (t + dur) else .failed "Request timeout" (t + timeoutMs)
  | .hang => .failed "Request timeout" (t + timeoutMs)

/-- One entry of the `errors` array of `enhanceWithFallback`:
`{ provider, error, timestamp }` (the error converted to its message string). -/
structure FailureRecord where
  provider : String
  errorMsg : String
  timestamp : Nat
deriving DecidableEq, Repr

/-- Observables of the candidate loop: failure records in push order, the names of
candidates whose loop iteration ran, the names whose `enhance` was invoked, the
virtual end time, and the successful result with its candidate index if any. -/
structure LoopOut where
  recs : List FailureRecord
  attempted : List String
  calls : List String
  endT : Nat
  success : Option (EnhancementResult × Nat)
deriving DecidableEq

/-- Extension of a loop tail by one pre-`enhance` failure (`errors.push` +
`continue` without an `enhance` invocation). -/
def failCons (name msg : String) (t : Nat) (o : LoopOut) : LoopOut :=
  ⟨⟨name, msg, t⟩ :: o.recs, name :: o.attempted, o.calls, o.endT, o.success⟩

/-- Extension of a loop tail by one failed `enhance` attempt (the `catch` block:
`errors.push` + `continue`, with the `enhance` invocation recorded). -/
def enhCons (name msg : String) (t : Nat) (o : LoopOut) : LoopOut :=
  ⟨⟨name, msg, t⟩ :: o.recs, name :: o.attempted, name :: o.calls, o.endT, o.success⟩

/-- The `for (const name of ordered)` loop of `enhanceWithFallback`, iterating the
remaining candidate names; `i` is the absolute candidate index (oracle index) and
`t` the virtual clock.  Mirrors, in order: registry lookup, the
`name !== 'Ollama (Local)' && !key` guard, `configure`, the `isConfigured()`
guard, then the timed `enhance` race; every failing path pushes one
`FailureRecord` and continues. -/
def attemptFrom (config : List ProviderConfig) (beh : Nat → AttemptBehavior) :
    List String → Nat → Nat → LoopOut
  | [], _, t => ⟨[], [], [], t, none⟩
  | name :: rest, i, t =>
    if ¬ registryHas name then
      failCons name "Provider not found" t (attemptFrom config beh rest (i + 1) t)
    else if name ≠ localName ∧ getProviderApiKey config name = "" then
      failCons name "API key not configured" t (attemptFrom config beh rest (i + 1) t)
    else if ¬ (beh i).isConfiguredAfter then
      failCons name "Provider not properly configured" t (attemptFrom config beh rest (i + 1) t)
    else
      match raceWithTimeout t (beh i).outcome with
      | .done r t' => ⟨[], [name], [name], t', some (r, i)⟩
      | .failed m t' => enhCons name m t' (attemptFrom config beh rest (i + 1) t')

/-- The composite failure thrown when every candidate fails: message, `code`,
`errors`, `textLength`, `enhancementType`, `processingTime` fields. -/
structure CompositeError where
  message : String
  code : String
  errors : List FailureRecord
  textLength : Nat
  enhancementType : String
  processingTime : Nat
deriving DecidableEq

/-- The three exits of `enhanceWithFallback`: a successful result, the immediate
"no providers" error, or the aggregated `ALL_PROVIDERS_FAILED` error. -/
inductive EnhanceOutcome where
  | success (r : EnhancementResult)
  | noProviders (msg : String)
  | allFailed (e : CompositeError)
deriving DecidableEq

/-- The message of the immediate empty-candidate error. -/
def noProvidersMsg : String :=
  "No configured providers available. Please add and enable at least one AI provider in Settings."

/-- Builds the composite error exactly as the source does after the loop. -/
def mkComposite (candCount : Nat) (recs : List FailureRecord) (text : String)
    (opts : EnhancementOptions) (elapsed : Nat) : CompositeError :=
  { message := "All " ++ toString candCount ++ " provider(s) failed. " ++
      String.intercalate "; " (recs.map (fun r => r.provider ++ ": " ++ r.errorMsg))
    code := "ALL_PROVIDERS_FAILED"
    errors := recs
    textLength := text.length
    enhancementType := opts.type
    processingTime := elapsed }

/-- Full observable trace of one `enhanceWithFallback` call. -/
structure RunTrace where
  outcome : EnhanceOutcome
  attempted : List String
  calls : List String
  recs : List FailureRecord
  succIdx : Option Nat
  startTime : Nat
  endTime : Nat
deriving DecidableEq

/-- `enhanceWithFallback(text, options)` started at virtual time `t0` against the
persisted descriptor list `config`, with adapter behaviour given by `beh`. -/
def enhanceWithFallback (config : List ProviderConfig) (beh : Nat → AttemptBehavior)
    (text : String) (opts : EnhancementOptions) (t0 : Nat) : RunTrace :=
  let cands := orderedCandidates config
  if cands.isEmpty then
    ⟨.noProviders noProvidersMsg, [], [], [], none, t0, t0⟩
  else
    let o := attemptFrom config beh cands 0 t0
    match o.success with
    | some (r, j) => ⟨.success r, o.attempted, o.calls, o.recs, some j, t0, o.endT⟩
    | none =>
      ⟨.allFailed (mkComposite cands.length o.recs text opts (o.endT - t0)), o.attempted,
        o.calls, o.recs, none, t0, o.endT⟩

/-- JS `\d`. -/
def isDigitCh (c : Char) : Bool := '0' ≤ c && c ≤ '9'

/-- JS `\w` (word character, used by the `\b` assertion): `[A-Za-z0-9_]`. -/
def isWordCh (c : Char) : Bool :=
  ('a' ≤ c && c ≤ 'z') || ('A' ≤ c && c ≤ 'Z') || isDigitCh c || c == '_'

/-- JS `\s`: the WhiteSpace and LineTerminator code points. -/
def isJsSpace (c : Char) : Bool :=
  c == ' ' || c == '\t' || c == '\n' || c == '\x0b' || c == '\x0c' || c == '\r' ||
  c.val == 0xa0 || c.val == 0x1680 || (0x2000 ≤ c.val && c.val ≤ 0x200a) ||
  c.val == 0x2028 || c.val == 0x2029 || c.val == 0x202f || c.val == 0x205f ||
  c.val == 0x3000 || c.val == 0xfeff

/-- JS `String.prototype.trim`: strip leading and trailing WhiteSpace and
LineTerminator code points. -/
def jsTrim (s : String) : String :=
  ⟨(((s.data.dropWhile isJsSpace).reverse.dropWhile isJsSpace)).reverse⟩

/-! ### OllamaProvider.enhance (ollama.ts)

The HTTP round trip is abstracted by `net` (the `response.data?.response ?? ''`
string on success, the axios error message on failure) and its duration `dur`.
`processingTime` is `Date.now() - startTime` with `startTime` taken at the top of
`enhance` — the adapter's own start, so it equals `dur`. -/

/-- `OllamaProvider.enhance`, with network behaviour `net` taking `dur` ms. -/
def ollamaEnhance (text : String) (opts : EnhancementOptions)
    (net : Except String String) (dur : Nat) : Except String EnhancementResult :=
  match net with
  | .ok content =>
    .ok { original := text
          suggestions := [{ text := jsTrim content, type := opts.type,
                            confidence := (85 : Rat) / 100, changes := some [] }]
          provider := localName
          tokensUsed := none
          processingTime := dur }
  | .error msg => .error ("Ollama enhancement failed: " ++ msg)

/-! ### Chat orchestration (chat-handlers.ts) -/

/-- One `{ role, content }` entry of the assembled chat message list. -/
structure RoleMsg where
  role : String
  content : String
deriving DecidableEq, Repr

/-- Outcome of one `enhanceWithProvider` call: the `{ text, tokensUsed }` object,
or the thrown error's message. -/
inductive ChatOutcome where
  | ok (text : String) (tokensUsed : Option Nat)
  | fail (msg : String)
deriving DecidableEq, Repr

/-- Candidate selection of the `chat:send-message` handler:
`ConfigManager.getProviders().filter(p => p.enabled).sort((a, b) => a.priority - b.priority)`.
Note: unlike `enhanceWithFallback`, there is no apiKey condition. -/
def chatCandidates (config : List ProviderConfig) : List ProviderConfig :=
  sortByPriority (config.filter (fun p => p.enabled))

/-- Observables of the chat provider loop. -/
structure ChatRunOut where
  attempted : List String
  failed : List (String × String)
  response : Option (String × Option Nat × String)
deriving DecidableEq, Repr

/-- The `for (const providerConfig of providerConfigs)` loop of
`chat:send-message`: a missing adapter is skipped silently; otherwise
`enhanceWithProvider` (behaviour `cbeh i`) is attempted, a success returns
immediately, a failure is recorded in `failedProviders` and the loop continues. -/
def chatLoop (cbeh : Nat → ChatOutcome) : List ProviderConfig → Nat → ChatRunOut
  | [], _ => ⟨[], [], none⟩
  | pc :: rest, i =>
    if registryHas pc.name then
      match cbeh i with
      | .ok text tok => ⟨[pc.name], [], some (text, tok, pc.name)⟩
      | .fail m =>
        let o := chatLoop cbeh rest (i + 1)
        ⟨pc.name :: o.attempted, (pc.name, m) :: o.failed, o.response⟩
    else
      chatLoop cbeh rest (i + 1)

/-- The provider-fallback portion of the `chat:send-message` handler: empty
candidate list short-circuits with the `NO_PROVIDER` error, otherwise the loop
runs over the enabled descriptors in priority order. -/
def chatRun (config : List ProviderConfig) (cbeh : Nat → ChatOutcome) : ChatRunOut :=
  let cands := chatCandidates config
  if cands.isEmpty then ⟨[], [], none⟩
  else chatLoop cbeh cands 0

/-- Options passed to `enhanceChat` by `enhanceWithProvider`. -/
structure ChatEnhOptions where
  temperature : Rat
  maxTokens : Nat
  topP : Rat
deriving DecidableEq, Repr

/-- An adapter as seen by `enhanceWithProvider`: name, the optional `enhanceChat`
capability (dynamic `'enhanceChat' in provider` check), and the plain `enhance`
method. -/
structure ChatAdapter where
  name : String
  enhanceChatFn : Option (List RoleMsg → ChatEnhOptions → ChatOutcome)
  enhanceFn : String → EnhancementOptions → Except String EnhancementResult

/-- `enhanceWithProvider(provider, messages, config, chatManager)`: call
`enhanceChat` when present, else degrade to a single-turn `enhance` of the last
user-role message's content (`messages.filter(m => m.role === 'user').pop()?.content || ''`)
with `{ type: 'rephrase', maxVariants: 1 }`, projecting out the first suggestion. -/
def enhanceWithProvider (p : ChatAdapter) (messages : List RoleMsg)
    (temp : Rat) (maxTok : Nat) : ChatOutcome :=
  match p.enhanceChatFn with
  | some f => f messages ⟨temp, maxTok, 1⟩
  | none =>
    let lastUserMessage :=
      ((((messages.filter (fun m => m.role == "user")).getLast?).map (fun m => m.content))).getD ""
    match p.enhanceFn lastUserMessage ⟨"rephrase", none, none, some 1⟩ with
    | .ok r => .ok (((r.suggestions.head?).map (fun s => s.text)).getD "") r.tokensUsed
    | .error e => .fail e

/-- Content of the last user-role message of a list, formulated independently of
`enhanceWithProvider` (search from the right). -/
def lastUserContent (messages : List RoleMsg) : String :=
  (((messages.reverse.find? (fun m => m.role == "user")).map (fun m => m.content))).getD ""

/-! ### PrivacyManager.containsSensitiveData (privacy-manager.ts)

`SENSITIVE_PATTERNS` is a module-level array of two `g`-flagged regexes:
`/\b\d{4}[\s-]?\d{4}[\s-]?\d{4}[\s-]?\d{4}\b/g` and `/\b\d{3}-\d{2}-\d{4}\b/g`.
`containsSensitiveData` evaluates `SENSITIVE_PATTERNS.some((p) => p.test(text))`.
Per the ECMAScript semantics of `RegExp.prototype.test` on a global regex, each
call starts matching at the regex object's persistent `lastIndex`, sets
`lastIndex` to the match end on success and resets it to 0 on failure; `some`
short-circuits on the first `true`.  Both patterns match deterministically
(each optional `[\s-]?` branch is decided by a character class disjoint from
`\d`), so the matcher below needs no backtracking. -/

/-- The `[\s-]` character class. -/
def isSepCh (c : Char) : Bool := isJsSpace c || c == '-'

/-- Whether position `i` of `s` is a word character (out of range counts as not). -/
def wordAt (s : List Char) (i : Nat) : Bool :=
  match s.get? i with
  | some c => isWordCh c
  | none => false

/-- The `\b` assertion between positions `i - 1` and `i`. -/
def boundaryAt (s : List Char) (i : Nat) : Bool :=
  (if i = 0 then false else wordAt s (i - 1)) != wordAt s i

/-- `\d{n}` starting at `i`: returns the position after the digits. -/
def digitsAt (s : List Char) (i n : Nat) : Option Nat :=
  match n with
  | 0 => some i
  | n + 1 =>
    match s.get? i with
    | some c => if isDigitCh c then digitsAt s (i + 1) n else none
    | none => none

/-- `[\s-]?` at `i` (greedy; deterministic because `[\s-]` and `\d` are disjoint). -/
def optSepAt (s : List Char) (i : Nat) : Nat :=
  match s.get? i with
  | some c => if isSepCh c then i + 1 else i
  | none => i

/-- Literal character `ch` at `i`. -/
def charLitAt (s : List Char) (i : Nat) (ch : Char) : Option Nat :=
  match s.get? i with
  | some c => if c == ch then some (i + 1) else none
  | none => none

/-- Match of `\b\d{4}[\s-]?\d{4}[\s-]?\d{4}[\s-]?\d{4}\b` anchored at `i`:
returns the end position of the match. -/
def cardMatchEnd (s : List Char) (i : Nat) : Option Nat :=
  if boundaryAt s i then
    (digitsAt s i 4).bind (fun j1 =>
      (digitsAt s (optSepAt s j1) 4).bind (fun j2 =>
        (digitsAt s (optSepAt s j2) 4).bind (fun j3 =>
          (digitsAt s (optSepAt s j3) 4).bind (fun j4 =>
            if boundaryAt s j4 then some j4 else none))))
  else none

/-- Match of `\b\d{3}-\d{2}-\d{4}\b` anchored at `i`. -/
def ssnMatchEnd (s : List Char) (i : Nat) : Option Nat :=
  if boundaryAt s i then
    (digitsAt s i 3).bind (fun j1 =>
      (charLitAt s j1 '-').bind (fun j2 =>
        (digitsAt s j2 2).bind (fun j3 =>
          (charLitAt s j3 '-').bind (fun j4 =>
            (digitsAt s j4 4).bind (fun j5 =>
              if boundaryAt s j5 then some j5 else none)))))
  else none

/-- Leftmost match at a start position `≥ start`: the regex engine scans forward
from `lastIndex`; returns the end position of the first match. -/
def searchFrom (matchAt : List Char → Nat → Option Nat) (s : List Char)
    (start : Nat) : Option Nat :=
  (List.range (s.length + 1)).findSome?
    (fun i => if start ≤ i then matchAt s i else none)

/-- `RegExp.prototype.test` on a `g`-flagged regex: start at `lastIndex` (failing
outright if it exceeds the string length), return whether a match exists, and
update `lastIndex` (match end on success, 0 on failure). -/
def globalTest (matchAt : List Char → Nat → Option Nat) (s : List Char)
    (lastIndex : Nat) : Bool × Nat :=
  if s.length < lastIndex then (false, 0)
  else
    match searchFrom matchAt s lastIndex with
    | some e => (true, e)
    | none => (false, 0)

/-- The persistent `lastIndex` fields of the two module-level pattern objects. -/
structure PrivacyState where
  cardLastIndex : Nat
  ssnLastIndex : Nat
deriving DecidableEq, Repr

/-- Fresh module state (regex literals start with `lastIndex = 0`). -/
def initialPrivacyState : PrivacyState := ⟨0, 0⟩

/-- `PrivacyManagerClass.containsSensitiveData(text)`:
`SENSITIVE_PATTERNS.some((p) => p.test(text))` with the patterns' `lastIndex`
state threaded explicitly.  `some` short-circuits: the SSN pattern is not
exercised when the card pattern matches. -/
def containsSensitiveData (text : String) (st : PrivacyState) : Bool × PrivacyState :=
  let s := text.data
  let r1 := globalTest cardMatchEnd s st.cardLastIndex
  if r1.1 then (true, ⟨r1.2, st.ssnLastIndex⟩)
  else
    let r2 := globalTest ssnMatchEnd s st.ssnLastIndex
    (r2.1, ⟨r1.2, r2.2⟩)

/-! ### ConfigManager.updateProvider (config-manager.ts) -/

/-- `Partial<ProviderConfig>`: each field optionally present. -/
structure ProviderUpdate where
  name : Option String
  apiKey : Option String
  model : Option String
  enabled : Option Bool
  priority : Option Int
deriving DecidableEq, Repr

/-- JS object spread `{ ...c, ...u }`. -/
def mergeUpdate (c : ProviderConfig) (u : ProviderUpdate) : ProviderConfig :=
  { name := u.name.getD c.name
    apiKey := u.apiKey.getD c.apiKey
    model := u.model.getD c.model
    enabled := u.enabled.getD c.enabled
    priority := u.priority.getD c.priority }

/-- The reorder pass of `updateProvider`: every descriptor at an index other than
`idx` with `1 <= priority <= oldPriority` gets `priority + 1`; `pos` is the index
of the list head. -/
def shiftForPromotion (old : Int) (idx : Nat) : List ProviderConfig → Nat → List ProviderConfig
  | [], _ => []
  | c :: cs, pos =>
    (if pos ≠ idx ∧ 1 ≤ c.priority ∧ c.priority ≤ old then
      { c with priority := c.priority + 1 }
    else c) :: shiftForPromotion old idx cs (pos + 1)

/-- `DEFAULT_APP_CONFIG.providers` from shared/constants.ts (the variant that also
defines `DEFAULT_CHAT_CONFIG`, which config-manager.ts imports). -/
def DEFAULT_PROVIDERS : List ProviderConfig :=
  [⟨"OpenAI", "", "gpt-4o-mini", false, 1⟩,
   ⟨"OpenRouter", "", "openai/gpt-4o-mini", false, 2⟩,
   ⟨"Anthropic", "", "claude-3-sonnet-20240229", false, 3⟩,
   ⟨localName, "", "llama2", false, 4⟩]

/-- The conditional reorder pass of `updateProvider` (the
`if (config.priority === 1 && idx >= 0)` block): when the update sets priority to
exactly 1 and the found descriptor's old priority differs from 1, apply
`shiftForPromotion`; otherwise leave the list unchanged. -/
def promoteIfNeeded (providers : List ProviderConfig) (i : Nat)
    (u : ProviderUpdate) : List ProviderConfig :=
  if u.priority = some 1 then
    match providers[i]? with
    | some cur =>
      if cur.priority ≠ 1 then shiftForPromotion cur.priority i providers 0 else providers
    | none => providers
  else providers

/-- The overwrite step `providers[idx] = { ...providers[idx], ...config }`. -/
def updateAt (providers1 : List ProviderConfig) (i : Nat)
    (u : ProviderUpdate) : List ProviderConfig :=
  match providers1[i]? with
  | some c => providers1.set i (mergeUpdate c u)
  | none => providers1

/-- `ConfigManagerClass.updateProvider(name, config)`: find the named descriptor;
if the update sets `priority` to exactly 1 and the descriptor exists with an old
priority other than 1, first shift every other descriptor whose priority lies in
`[1, old]` up by one; then overwrite the named descriptor by spread, or append a
new one (defaults-based) when absent. -/
def updateProvider (providers : List ProviderConfig) (name : String)
    (u : ProviderUpdate) : List ProviderConfig :=
  match providers.findIdx? (fun p => p.name == name) with
  | some i => updateAt (promoteIfNeeded providers i u) i u
  | none =>
    let base := ((DEFAULT_PROVIDERS.find? (fun p => p.name == name))).getD
      ⟨name, "", "", false, (providers.length : Int) + 1⟩
    providers ++ [{ mergeUpdate base u with name := name }]

/-! ### Specification-side helper definitions used by the theorems -/

/-- A failure record without its timestamp. -/
def recProj (r : FailureRecord) : String × String := (r.provider, r.errorMsg)

/-- The failure message an `enhance`-race outcome produces if it fails. -/
def outcomeProjB : Outcome → Sum EnhancementResult String
  | .ok r d => if d < timeoutMs then .inl r else .inr "Request timeout"
  | .err m d => .inr (if d < timeoutMs then m else "Request timeout")
  | .hang => .inr "Request timeout"

/-- Timing-free view of an attempt behaviour. -/
def projBeh (b : AttemptBehavior) : Bool × Sum EnhancementResult String :=
  (b.isConfiguredAfter, outcomeProjB b.outcome)

/-- Timing-free view of a race result. -/
def raceProj : RaceResult → Sum EnhancementResult String
  | .done r _ => .inl r
  | .failed m _ => .inr m

/-- The failure message candidate `name` at oracle index `i` yields, by the guard
that fires first (the `enhance`-race message when all guards pass; the `.inl`
case cannot fail and is mapped to an arbitrary string). -/
def attemptFailMsg (config : List ProviderConfig) (beh : Nat → AttemptBehavior)
    (name : String) (i : Nat) : String :=
  if ¬ registryHas name then "Provider not found"
  else if name ≠ localName ∧ getProviderApiKey config name = "" then "API key not configured"
  else if ¬ (beh i).isConfiguredAfter then "Provider not properly configured"
  else
    match outcomeProjB (beh i).outcome with
    | .inl _ => ""
    | .inr m => m

/-- Expected `(provider, message)` pairs of a run in which every candidate fails,
starting at oracle index `i`. -/
def expectedFailPairs (config : List ProviderConfig) (beh : Nat → AttemptBehavior) :
    List String → Nat → List (String × String)
  | [], _ => []
  | n :: ns, i => (n, attemptFailMsg config beh n i) :: expectedFailPairs config beh ns (i + 1)

/-- Replace the `enhance` outcome of the attempt at oracle index `k`, leaving its
`isConfigured()` answer and every other attempt unchanged. -/
def setOutcome (beh : Nat → AttemptBehavior) (k : Nat) (oc : Outcome) :
    Nat → AttemptBehavior :=
  fun j => if j = k then ⟨(beh j).isConfiguredAfter, oc⟩ else beh j

/-- Timing-free view of an orchestration exit. -/
inductive OutcomeView where
  | success (r : EnhancementResult)
  | noProviders (msg : String)
  | allFailed (code msg : String) (errs : List (String × String)) (textLength : Nat)
      (enhancementType : String)
deriving DecidableEq

/-- Timing-free projection of an orchestration exit. -/
def outcomeProj : EnhanceOutcome → OutcomeView
  | .success r => .success r
  | .noProviders m => .noProviders m
  | .allFailed e => .allFailed e.code e.message (e.errors.map recProj) e.textLength e.enhancementType

/-- Timing-free view of a whole run: exit, iteration order, `enhance` invocations,
failure records without timestamps. -/
def runProj (tr : RunTrace) :
    OutcomeView × List String × List String × List (String × String) :=
  (outcomeProj tr.outcome, tr.attempted, tr.calls, tr.recs.map recProj)

/-! ### Concrete instances used by witnesses and counterexamples -/

/-- Options value used by concrete runs. -/
def optsW : EnhancementOptions := ⟨"rephrase", none, none, none⟩

/-- Two enabled, eligible providers: a remote one with a key and the local one. -/
def cfgC8 : List ProviderConfig :=
  [⟨"OpenRouter", "sk", "m", true, 1⟩, ⟨localName, "", "llama2", true, 2⟩]

/-- The result the modelled Ollama adapter produces for text `"hi"`, network
content `"better hi"`, and an adapter-call duration of 7 ms. -/
def resC8 : EnhancementResult :=
  { original := "hi"
    suggestions := [{ text := "better hi", type := "rephrase",
                      confidence := (85 : Rat) / 100, changes := some [] }]
    provider := localName
    tokensUsed := none
    processingTime := 7 }

/-- First candidate fails after 5 ms, second (Ollama) succeeds after 7 ms. -/
def behC8 : Nat → AttemptBehavior :=
  fun i => if i = 1 then ⟨true, .ok resC8 7⟩ else ⟨true, .err "boom" 5⟩

/-- The run exhibiting the `processingTime` discrepancy. -/
def trC8 : RunTrace := enhanceWithFallback cfgC8 behC8 "hi" optsW 0

/-- A single enabled, non-local provider with an empty API key. -/
def cfgC6 : List ProviderConfig := [⟨"OpenRouter", "", "m", true, 1⟩]

/-- The chat attempt against it fails with an authentication error. -/
def cbehC6 : Nat → ChatOutcome := fun _ => .fail "unauthorized"

/-- Spec §8 example shape: A(priority 2), B(priority 1), C(priority 3), all
eligible. -/
def cfgC1 : List ProviderConfig :=
  [⟨"Anthropic", "ka", "m", true, 2⟩, ⟨"OpenRouter", "kb", "m", true, 1⟩,
   ⟨localName, "", "llama2", true, 3⟩]

/-- Every attempt throws, with distinct messages. -/
def behAllFail : Nat → AttemptBehavior :=
  fun i => ⟨true, .err ("e" ++ toString i) (i + 1)⟩

/-- A run of `cfgC1` in which every provider fails. -/
def trC1 : RunTrace := enhanceWithFallback cfgC1 behAllFail "txt" optsW 0

/-- Two eligible providers that both fail with distinct errors
(spec §8 property 5's example). -/
def cfgC2 : List ProviderConfig :=
  [⟨"OpenRouter", "kb", "m", true, 1⟩, ⟨"Anthropic", "ka", "m", true, 2⟩]

/-- `"unauthorized"` then `"rate limited"`. -/
def behC2 : Nat → AttemptBehavior :=
  fun i => if i = 0 then ⟨true, .err "unauthorized" 3⟩ else ⟨true, .err "rate limited" 4⟩

/-- The all-failed run for `cfgC2`. -/
def trC2 : RunTrace := enhanceWithFallback cfgC2 behC2 "hello" optsW 0

/-- The composite error `trC2` exits with. -/
def errC2 : CompositeError :=
  { message := "All 2 provider(s) failed. OpenRouter: unauthorized; Anthropic: rate limited"
    code := "ALL_PROVIDERS_FAILED"
    errors := [⟨"OpenRouter", "unauthorized", 3⟩, ⟨"Anthropic", "rate limited", 7⟩]
    textLength := 5
    enhancementType := "rephrase"
    processingTime := 7 }


/-- An all-disabled configuration (C4 witness). -/
def cfgC4 : List ProviderConfig := [⟨"OpenAI", "k", "m", false, 1⟩]

/-- An adapter without the `enhanceChat` capability whose `enhance` echoes its
input as the single suggestion (C9 witness). -/
def echoAdapter : ChatAdapter :=
  { name := "OpenRouter"
    enhanceChatFn := none
    enhanceFn := fun text opts =>
      .ok { original := text
            suggestions := [{ text := "echo " ++ text, type := opts.type, confidence := 1,
                              changes := none }]
            provider := "OpenRouter"
            tokensUsed := some 3
            processingTime := 1 } }

/-- A three-message conversation whose last user message is `"second"` (C9). -/
def msgsC9 : List RoleMsg :=
  [⟨"system", "sys"⟩, ⟨"user", "first"⟩, ⟨"assistant", "reply"⟩, ⟨"user", "second"⟩]

/-- The same last user message with a different earlier history (C9). -/
def msgsC9b : List RoleMsg := [⟨"user", "second"⟩]

/-- The credit-card-shaped input showing the statefulness of the privacy gate. -/
def ccInput : String := "1234-5678-9012-3456"

/-- Promotion update: set `priority` to 1 (C10 witness). -/
def updC10 : ProviderUpdate := ⟨none, none, none, some true, some 1⟩

/-! ### Sorting lemmas -/

theorem insertSorted_perm (c : ProviderConfig) (l : List ProviderConfig) :
    List.Perm (insertSorted c l) (c :: l) := by
  induction l with
  | nil => simp [insertSorted]
  | cons d ds ih =>
    simp only [insertSorted]
    split
    · exact List.Perm.refl _
    · exact (ih.cons d).trans (List.Perm.swap c d ds)

theorem sortByPriority_perm (l : List ProviderConfig) :
    List.Perm (sortByPriority l) l := by
  induction l with
  | nil => simp [sortByPriority]
  | cons x xs ih =>
    have h1 : sortByPriority (x :: xs) = insertSorted x (sortByPriority xs) := rfl
    rw [h1]
    exact (insertSorted_perm x _).trans (ih.cons x)

theorem pairwise_insertSorted {c : ProviderConfig} {l : List ProviderConfig}
    (h : List.Pairwise (fun a b => a.priority ≤ b.priority) l) :
    List.Pairwise (fun a b => a.priority ≤ b.priority) (insertSorted c l) := by
  induction l with
  | nil => simp [insertSorted]
  | cons d ds ih =>
    rcases List.pairwise_cons.mp h with ⟨hd, hds⟩
    simp only [insertSorted]
    split
    · rename_i hle
      refine List.pairwise_cons.mpr ⟨?_, h⟩
      intro x hx
      rcases List.mem_cons.mp hx with rfl | hx2
      · exact hle
      · exact le_trans hle (hd x hx2)
    · rename_i hgt
      refine List.pairwise_cons.mpr ⟨?_, ih hds⟩
      intro x hx
      have hx' := (insertSorted_perm c ds).mem_iff.mp hx
      rcases List.mem_cons.mp hx' with rfl | hx2
      · omega
      · exact hd x hx2

theorem sortByPriority_pairwise (l : List ProviderConfig) :
    List.Pairwise (fun a b => a.priority ≤ b.priority) (sortByPriority l) := by
  induction l with
  | nil => simp [sortByPriority]
  | cons x xs ih => exact pairwise_insertSorted ih

theorem filter_insertSorted (p : Int) (c : ProviderConfig) (l : List ProviderConfig) :
    (insertSorted c l).filter (fun d => d.priority == p) =
      if c.priority == p then c :: l.filter (fun d => d.priority == p)
      else l.filter (fun d => d.priority == p) := by
  induction l with
  | nil => by_cases hc : c.priority = p <;> simp [insertSorted, hc]
  | cons d ds ih =>
    simp only [insertSorted]
    split
    · simp only [List.filter_cons]
    · rename_i hgt
      rw [List.filter_cons, ih]
      by_cases hc : c.priority = p
      · have hdp : (d.priority == p) = false := by
          rw [beq_eq_false_iff_ne]
          omega
        simp [hc, hdp, List.filter_cons]
      · have hc' : (c.priority == p) = false := by rw [beq_eq_false_iff_ne]; exact hc
        simp [hc', List.filter_cons]

theorem sortByPriority_filter_stable (p : Int) (l : List ProviderConfig) :
    (sortByPriority l).filter (fun d => d.priority == p) =
      l.filter (fun d => d.priority == p) := by
  induction l with
  | nil => rfl
  | cons x xs ih =>
    have h1 : sortByPriority (x :: xs) = insertSorted x (sortByPriority xs) := rfl
    rw [h1, filter_insertSorted, List.filter_cons]
    by_cases hx : x.priority = p <;> simp [hx, ih]

/-! ### Race lemmas -/

theorem raceProj_race (t : Nat) (oc : Outcome) :
    raceProj (raceWithTimeout t oc) = outcomeProjB oc := by
  cases oc with
  | ok r d => simp only [raceWithTimeout, outcomeProjB]; split <;> simp [raceProj]
  | err m d => simp only [raceWithTimeout, outcomeProjB]; split <;> simp [raceProj]
  | hang => rfl

theorem race_done {t : Nat} {oc : Outcome} {r : EnhancementResult} {t' : Nat}
    (h : raceWithTimeout t oc = .done r t') : ∃ d, d < timeoutMs ∧ oc = .ok r d := by
  cases oc with
  | ok r0 d =>
    simp only [raceWithTimeout] at h
    split at h
    · injection h with h1 h2
      exact ⟨d, by assumption, by rw [h1]⟩
    · cases h
  | err m d =>
    simp only [raceWithTimeout] at h
    split at h <;> cases h
  | hang =>
    simp only [raceWithTimeout] at h
    cases h

theorem race_failed {t : Nat} {oc : Outcome} {m : String} {t' : Nat}
    (h : raceWithTimeout t oc = .failed m t') : outcomeProjB oc = .inr m := by
  have h2 := raceProj_race t oc
  rw [h] at h2
  exact h2.symm

/-! ### Eligibility lemmas -/

theorem eligible_props {c : ProviderConfig} (h : eligible c = true) :
    c.enabled = true ∧ (c.name = localName ∨ c.apiKey ≠ "") := by
  simp only [eligible, Bool.and_eq_true, Bool.or_eq_true, beq_iff_eq,
    decide_eq_true_eq] at h
  refine ⟨h.1, ?_⟩
  rcases h.2 with h2 | h2
  · exact Or.inl h2
  · right
    intro hempty
    rw [hempty] at h2
    simp at h2

/-! ### Loop lemmas -/

theorem attemptFrom_take (config : List ProviderConfig) (beh : Nat → AttemptBehavior) :
    ∀ (names : List String) (i t : Nat),
    (attemptFrom config beh names i t).attempted =
      names.take (attemptFrom config beh names i t).attempted.length := by
  intro names
  induction names with
  | nil => intro i t; simp [attemptFrom]
  | cons name rest ih =>
    intro i t
    simp only [attemptFrom]
    split
    · simp only [failCons, List.length_cons, List.take_succ_cons]
      exact congrArg (name :: ·) (ih (i + 1) t)
    · split
      · simp only [failCons, List.length_cons, List.take_succ_cons]
        exact congrArg (name :: ·) (ih (i + 1) t)
      · split
        · simp only [failCons, List.length_cons, List.take_succ_cons]
          exact congrArg (name :: ·) (ih (i + 1) t)
        · split
          · simp
          · rename_i m t' hrace
            simp only [enhCons, List.length_cons, List.take_succ_cons]
            exact congrArg (name :: ·) (ih (i + 1) t')

theorem expectedFailPairs_length (config : List ProviderConfig) (beh : Nat → AttemptBehavior) :
    ∀ (names : List String) (i : Nat),
    (expectedFailPairs config beh names i).length = names.length := by
  intro names
  induction names with
  | nil => intro i; rfl
  | cons n ns ih => intro i; simp [expectedFailPairs, ih (i + 1)]

theorem expectedFailPairs_map_fst (config : List ProviderConfig) (beh : Nat → AttemptBehavior) :
    ∀ (names : List String) (i : Nat),
    (expectedFailPairs config beh names i).map Prod.fst = names := by
  intro names
  induction names with
  | nil => intro i; rfl
  | cons n ns ih => intro i; simp [expectedFailPairs, ih (i + 1)]

theorem attemptFrom_none (config : List ProviderConfig) (beh : Nat → AttemptBehavior) :
    ∀ (names : List String) (i t : Nat),
    (attemptFrom config beh names i t).success = none →
    (attemptFrom config beh names i t).attempted = names ∧
    (attemptFrom config beh names i t).recs.map recProj =
      expectedFailPairs config beh names i := by
  intro names
  induction names with
  | nil => intro i t _; simp [attemptFrom, expectedFailPairs]
  | cons name rest ih =>
    intro i t
    simp only [attemptFrom]
    split
    · rename_i h1
      intro hs
      simp only [failCons] at hs ⊢
      rcases ih (i + 1) t hs with ⟨hatt, hrecs⟩
      refine ⟨by rw [hatt], ?_⟩
      simp only [List.map_cons, hrecs, expectedFailPairs, recProj]
      rw [attemptFailMsg, if_pos h1]
    · rename_i h1
      split
      · rename_i h2
        intro hs
        simp only [failCons] at hs ⊢
        rcases ih (i + 1) t hs with ⟨hatt, hrecs⟩
        refine ⟨by rw [hatt], ?_⟩
        simp only [List.map_cons, hrecs, expectedFailPairs, recProj]
        rw [attemptFailMsg, if_neg h1, if_pos h2]
      · rename_i h2
        split
        · rename_i h3
          intro hs
          simp only [failCons] at hs ⊢
          rcases ih (i + 1) t hs with ⟨hatt, hrecs⟩
          refine ⟨by rw [hatt], ?_⟩
          simp only [List.map_cons, hrecs, expectedFailPairs, recProj]
          rw [attemptFailMsg, if_neg h1, if_neg h2, if_pos h3]
        · rename_i h3
          split
          · intro hs
            simp at hs
          · rename_i m t' hrace
            intro hs
            simp only [enhCons] at hs ⊢
            rcases ih (i + 1) t' hs with ⟨hatt, hrecs⟩
            refine ⟨by rw [hatt], ?_⟩
            simp only [List.map_cons, hrecs, expectedFailPairs, recProj]
            rw [attemptFailMsg, if_neg h1, if_neg h2, if_neg h3, race_failed hrace]

theorem attemptFrom_success (config : List ProviderConfig) (beh : Nat → AttemptBehavior) :
    ∀ (names : List String) (i t : Nat) (r : EnhancementResult) (j : Nat),
    (attemptFrom config beh names i t).success = some (r, j) →
    i ≤ j ∧ (∃ d, d < timeoutMs ∧ (beh j).outcome = .ok r d) ∧
    (attemptFrom config beh names i t).attempted = names.take (j - i + 1) ∧
    (∀ n ∈ (attemptFrom config beh names i t).calls,
       n ∈ (attemptFrom config beh names i t).attempted) := by
  intro names
  induction names with
  | nil => intro i t r j h; simp [attemptFrom] at h
  | cons name rest ih =>
    intro i t r j
    simp only [attemptFrom]
    split
    · intro hs
      simp only [failCons] at hs ⊢
      rcases ih (i + 1) t r j hs with ⟨hij, hok, hatt, hcalls⟩
      have hji : j - i + 1 = (j - (i + 1) + 1) + 1 := by omega
      refine ⟨by omega, hok, ?_, ?_⟩
      · rw [hji, List.take_succ_cons, hatt]
      · intro n hn
        exact List.mem_cons_of_mem name (hcalls n hn)
    · split
      · intro hs
        simp only [failCons] at hs ⊢
        rcases ih (i + 1) t r j hs with ⟨hij, hok, hatt, hcalls⟩
        have hji : j - i + 1 = (j - (i + 1) + 1) + 1 := by omega
        refine ⟨by omega, hok, ?_, ?_⟩
        · rw [hji, List.take_succ_cons, hatt]
        · intro n hn
          exact List.mem_cons_of_mem name (hcalls n hn)
      · split
        · intro hs
          simp only [failCons] at hs ⊢
          rcases ih (i + 1) t r j hs with ⟨hij, hok, hatt, hcalls⟩
          have hji : j - i + 1 = (j - (i + 1) + 1) + 1 := by omega
          refine ⟨by omega, hok, ?_, ?_⟩
          · rw [hji, List.take_succ_cons, hatt]
          · intro n hn
            exact List.mem_cons_of_mem name (hcalls n hn)
        · split
          · rename_i r0 t' hrace
            intro hs
            simp only [Option.some.injEq, Prod.mk.injEq] at hs
            rcases hs with ⟨hr, hj⟩
            subst hr
            subst hj
            rcases race_done hrace with ⟨d, hd, hoc⟩
            refine ⟨le_refl i, ⟨d, hd, hoc⟩, ?_, ?_⟩
            · simp
            · intro n hn
              simpa using hn
          · rename_i m t' hrace
            intro hs
            simp only [enhCons] at hs ⊢
            rcases ih (i + 1) t' r j hs with ⟨hij, hok, hatt, hcalls⟩
            have hji : j - i + 1 = (j - (i + 1) + 1) + 1 := by omega
            refine ⟨by omega, hok, ?_, ?_⟩
            · rw [hji, List.take_succ_cons, hatt]
            · intro n hn
              rcases List.mem_cons.mp hn with rfl | hn2
              · exact List.mem_cons_self _ _
              · exact List.mem_cons_of_mem name (hcalls n hn2)

theorem attemptFrom_proj_congr (config : List ProviderConfig)
    {beh1 beh2 : Nat → AttemptBehavior}
    (hbeh : ∀ j, projBeh (beh1 j) = projBeh (beh2 j)) :
    ∀ (names : List String) (i t1 t2 : Nat),
    (attemptFrom config beh1 names i t1).recs.map recProj =
      (attemptFrom config beh2 names i t2).recs.map recProj ∧
    (attemptFrom config beh1 names i t1).attempted =
      (attemptFrom config beh2 names i t2).attempted ∧
    (attemptFrom config beh1 names i t1).calls =
      (attemptFrom config beh2 names i t2).calls ∧
    (attemptFrom config beh1 names i t1).success =
      (attemptFrom config beh2 names i t2).success := by
  intro names
  induction names with
  | nil => intro i t1 t2; simp [attemptFrom]
  | cons name rest ih =>
    intro i t1 t2
    have hconf : (beh1 i).isConfiguredAfter = (beh2 i).isConfiguredAfter :=
      congrArg Prod.fst (hbeh i)
    have hout : outcomeProjB (beh1 i).outcome = outcomeProjB (beh2 i).outcome :=
      congrArg Prod.snd (hbeh i)
    simp only [attemptFrom]
    split
    · rcases ih (i + 1) t1 t2 with ⟨h1, h2, h3, h4⟩
      simp [failCons, recProj, h1, h2, h3, h4]
    · split
      · rcases ih (i + 1) t1 t2 with ⟨h1, h2, h3, h4⟩
        simp [failCons, recProj, h1, h2, h3, h4]
      · rw [hconf]
        split
        · rcases ih (i + 1) t1 t2 with ⟨h1, h2, h3, h4⟩
          simp [failCons, recProj, h1, h2, h3, h4]
        · have hrr : raceProj (raceWithTimeout t1 (beh1 i).outcome) =
              raceProj (raceWithTimeout t2 (beh2 i).outcome) := by
            rw [raceProj_race, raceProj_race, hout]
          cases hr1 : raceWithTimeout t1 (beh1 i).outcome with
          | done r1 s1 =>
            cases hr2 : raceWithTimeout t2 (beh2 i).outcome with
            | done r2 s2 =>
              rw [hr1, hr2] at hrr
              simp only [raceProj, Sum.inl.injEq] at hrr
              subst hrr
              simp
            | failed m2 s2 =>
              rw [hr1, hr2] at hrr
              simp [raceProj] at hrr
          | failed m1 s1 =>
            cases hr2 : raceWithTimeout t2 (beh2 i).outcome with
            | done r2 s2 =>
              rw [hr1, hr2] at hrr
              simp [raceProj] at hrr
            | failed m2 s2 =>
              rw [hr1, hr2] at hrr
              simp only [raceProj, Sum.inr.injEq] at hrr
              subst hrr
              rcases ih (i + 1) s1 s2 with ⟨h1, h2, h3, h4⟩
              simp [enhCons, recProj, h1, h2, h3, h4]

theorem chatLoop_attempted_mem (cbeh : Nat → ChatOutcome) :
    ∀ (cands : List ProviderConfig) (i : Nat) (n : String),
    n ∈ (chatLoop cbeh cands i).attempted → ∃ pc, pc ∈ cands ∧ pc.name = n := by
  intro cands
  induction cands with
  | nil => intro i n h; simp [chatLoop] at h
  | cons pc rest ih =>
    intro i n h
    simp only [chatLoop] at h
    split at h
    · split at h
      · rename_i tex tok heq
        simp at h
        exact ⟨pc, List.mem_cons_self _ _, h.symm⟩
      · rename_i m heq
        simp only at h
        rcases List.mem_cons.mp h with rfl | h2
        · exact ⟨pc, List.mem_cons_self _ _, rfl⟩
        · rcases ih (i + 1) n h2 with ⟨pc2, hmem, hname⟩
          exact ⟨pc2, List.mem_cons_of_mem pc hmem, hname⟩
    · rcases ih (i + 1) n h with ⟨pc2, hmem, hname⟩
      exact ⟨pc2, List.mem_cons_of_mem pc hmem, hname⟩

/-! ### Run-level inversion -/

theorem ewf_cases (config : List ProviderConfig) (beh : Nat → AttemptBehavior)
    (text : String) (opts : EnhancementOptions) (t0 : Nat) :
    (orderedCandidates config = [] ∧
      enhanceWithFallback config beh text opts t0 =
        ⟨.noProviders noProvidersMsg, [], [], [], none, t0, t0⟩) ∨
    (orderedCandidates config ≠ [] ∧
      ((∃ r j, (attemptFrom config beh (orderedCandidates config) 0 t0).success = some (r, j) ∧
        enhanceWithFallback config beh text opts t0 =
          ⟨.success r, (attemptFrom config beh (orderedCandidates config) 0 t0).attempted,
           (attemptFrom config beh (orderedCandidates config) 0 t0).calls,
           (attemptFrom config beh (orderedCandidates config) 0 t0).recs, some j, t0,
           (attemptFrom config beh (orderedCandidates config) 0 t0).endT⟩) ∨
       ((attemptFrom config beh (orderedCandidates config) 0 t0).success = none ∧
        enhanceWithFallback config beh text opts t0 =
          ⟨.allFailed (mkComposite (orderedCandidates config).length
             (attemptFrom config beh (orderedCandidates config) 0 t0).recs text opts
             ((attemptFrom config beh (orderedCandidates config) 0 t0).endT - t0)),
           (attemptFrom config beh (orderedCandidates config) 0 t0).attempted,
           (attemptFrom config beh (orderedCandidates config) 0 t0).calls,
           (attemptFrom config beh (orderedCandidates config) 0 t0).recs, none, t0,
           (attemptFrom config beh (orderedCandidates config) 0 t0).endT⟩))) := by
  by_cases hc : (orderedCandidates config).isEmpty
  · left
    refine ⟨List.isEmpty_iff.mp hc, ?_⟩
    simp only [enhanceWithFallback]
    rw [if_pos hc]
  · right
    refine ⟨fun h => hc (by simp [h]), ?_⟩
    cases hs : (attemptFrom config beh (orderedCandidates config) 0 t0).success with
    | some v =>
      obtain ⟨r, j⟩ := v
      left
      refine ⟨r, j, rfl, ?_⟩
      simp only [enhanceWithFallback]
      rw [if_neg hc, hs]
    | none =>
      right
      refine ⟨rfl, ?_⟩
      simp only [enhanceWithFallback]
      rw [if_neg hc, hs]

theorem mem_orderedCandidates {config : List ProviderConfig} {n : String}
    (h : n ∈ orderedCandidates config) :
    ∃ c, c ∈ config ∧ c.name = n ∧ c.enabled = true ∧
      (c.name = localName ∨ c.apiKey ≠ "") := by
  rcases List.mem_map.mp h with ⟨c, hc, hname⟩
  have hc2 : c ∈ config.filter eligible :=
    (sortByPriority_perm (config.filter eligible)).mem_iff.mp hc
  rcases List.mem_filter.mp hc2 with ⟨hmem, helig⟩
  rcases eligible_props helig with ⟨hen, hkey⟩
  exact ⟨c, hmem, hname, hen, hkey⟩

/-! ### Claim theorems -/

/-- C1: for every persisted provider configuration list, the candidate order of
`enhanceWithFallback` consists exactly of the descriptors with `enabled` and
(local backend or non-empty apiKey), sorted ascending by priority by a stable
sort (equal priorities keep their original relative order), projected to names;
and candidates are attempted in exactly that order (the attempted list is an
initial segment of it, the whole of it when no attempt succeeds). -/
theorem C1_candidate_order (config : List ProviderConfig) (beh : Nat → AttemptBehavior)
    (text : String) (opts : EnhancementOptions) (t0 : Nat) :
    List.Pairwise (fun a b => a.priority ≤ b.priority) (sortedEligible config) ∧
    List.Perm (sortedEligible config) (config.filter eligible) ∧
    (∀ p : Int, (sortedEligible config).filter (fun c => c.priority == p) =
      (config.filter eligible).filter (fun c => c.priority == p)) ∧
    orderedCandidates config = (sortedEligible config).map (fun c => c.name) ∧
    (enhanceWithFallback config beh text opts t0).attempted =
      (orderedCandidates config).take
        (enhanceWithFallback config beh text opts t0).attempted.length ∧
    ((enhanceWithFallback config beh text opts t0).succIdx = none →
      (enhanceWithFallback config beh text opts t0).attempted = orderedCandidates config) := by
  refine ⟨sortByPriority_pairwise _, sortByPriority_perm _,
    fun p => sortByPriority_filter_stable p _, rfl, ?_, ?_⟩
  · rcases ewf_cases config beh text opts t0 with ⟨hc, heq⟩ |
      ⟨hc, ⟨r, j, hs, heq⟩ | ⟨hs, heq⟩⟩
    · rw [heq, hc]
      simp
    · rw [heq]
      exact attemptFrom_take config beh _ 0 t0
    · rw [heq]
      exact attemptFrom_take config beh _ 0 t0
  · intro hnone
    rcases ewf_cases config beh text opts t0 with ⟨hc, heq⟩ |
      ⟨hc, ⟨r, j, hs, heq⟩ | ⟨hs, heq⟩⟩
    · rw [heq, hc]
    · rw [heq] at hnone
      simp at hnone
    · rw [heq]
      exact (attemptFrom_none config beh _ 0 t0 hs).1

/-- C1 witness: a concrete all-failing run attempts exactly the ordered
candidate list. -/
theorem C1_candidate_order_witness :
    (enhanceWithFallback cfgC1 behAllFail "txt" optsW 0).succIdx = none ∧
    (enhanceWithFallback cfgC1 behAllFail "txt" optsW 0).attempted =
      orderedCandidates cfgC1 :=
  ⟨by decide, (C1_candidate_order cfgC1 behAllFail "txt" optsW 0).2.2.2.2.2 (by decide)⟩

/-- C2: when the run exits with the composite error, that error carries the code
`ALL_PROVIDERS_FAILED`, exactly one `errors[]` entry per candidate — in candidate
order, each naming its provider and carrying the message produced by that
provider's attempt — and a message prefixed by the candidate count that joins
every `"<provider>: <message>"` with `"; "`. -/
theorem C2_aggregate_failure (config : List ProviderConfig) (beh : Nat → AttemptBehavior)
    (text : String) (opts : EnhancementOptions) (t0 : Nat) (e : CompositeError) :
    (enhanceWithFallback config beh text opts t0).outcome = .allFailed e →
    e.code = "ALL_PROVIDERS_FAILED" ∧
    e.errors.length = (orderedCandidates config).length ∧
    e.errors.map (fun r => r.provider) = orderedCandidates config ∧
    e.errors.map recProj = expectedFailPairs config beh (orderedCandidates config) 0 ∧
    e.message = "All " ++ toString (orderedCandidates config).length ++
      " provider(s) failed. " ++
      String.intercalate "; " (e.errors.map (fun r => r.provider ++ ": " ++ r.errorMsg)) := by
  intro h
  rcases ewf_cases config beh text opts t0 with ⟨hc, heq⟩ |
    ⟨hc, ⟨r, j, hs, heq⟩ | ⟨hs, heq⟩⟩
  · rw [heq] at h
    simp at h
  · rw [heq] at h
    simp at h
  · rw [heq] at h
    simp only [RunTrace.mk.injEq] at h ⊢
    have he : e = mkComposite (orderedCandidates config).length
        (attemptFrom config beh (orderedCandidates config) 0 t0).recs text opts
        ((attemptFrom config beh (orderedCandidates config) 0 t0).endT - t0) := by
      cases h
      rfl
    subst he
    rcases attemptFrom_none config beh _ 0 t0 hs with ⟨hatt, hrecs⟩
    refine ⟨rfl, ?_, ?_, hrecs, rfl⟩
    · have h1 := congrArg List.length hrecs
      rw [List.length_map, expectedFailPairs_length] at h1
      exact h1
    · have h2 := congrArg (List.map Prod.fst) hrecs
      rw [List.map_map, expectedFailPairs_map_fst] at h2
      exact h2

/-- C2 witness: two providers throwing `"unauthorized"` and `"rate limited"`
produce a two-entry composite error carrying both messages. -/
theorem C2_aggregate_failure_witness :
    (enhanceWithFallback cfgC2 behC2 "hello" optsW 0).outcome = .allFailed errC2 ∧
    (errC2.code = "ALL_PROVIDERS_FAILED" ∧
     errC2.errors.length = (orderedCandidates cfgC2).length ∧
     errC2.errors.map (fun r => r.provider) = orderedCandidates cfgC2 ∧
     errC2.errors.map recProj = expectedFailPairs cfgC2 behC2 (orderedCandidates cfgC2) 0 ∧
     errC2.message = "All " ++ toString (orderedCandidates cfgC2).length ++
       " provider(s) failed. " ++
       String.intercalate "; " (errC2.errors.map (fun r => r.provider ++ ": " ++ r.errorMsg))) :=
  ⟨by decide, C2_aggregate_failure cfgC2 behC2 "hello" optsW 0 errC2 (by decide)⟩

/-- C3: when some candidate's `enhance` succeeds, the orchestrator returns that
adapter's result unmodified (it is exactly the oracle's `.ok` payload), the
attempted candidates are precisely those up to and including the successful one,
and `enhance` is invoked only on attempted candidates — none after the first
success. -/
theorem C3_at_most_one_success (config : List ProviderConfig) (beh : Nat → AttemptBehavior)
    (text : String) (opts : EnhancementOptions) (t0 : Nat) (r : EnhancementResult) :
    (enhanceWithFallback config beh text opts t0).outcome = .success r →
    ∃ j, (enhanceWithFallback config beh text opts t0).succIdx = some j ∧
      (∃ d, d < timeoutMs ∧ (beh j).outcome = .ok r d) ∧
      (enhanceWithFallback config beh text opts t0).attempted =
        (orderedCandidates config).take (j + 1) ∧
      (∀ n ∈ (enhanceWithFallback config beh text opts t0).calls,
        n ∈ (enhanceWithFallback config beh text opts t0).attempted) := by
  intro h
  rcases ewf_cases config beh text opts t0 with ⟨hc, heq⟩ |
    ⟨hc, ⟨r0, j, hs, heq⟩ | ⟨hs, heq⟩⟩
  · rw [heq] at h
    simp at h
  · rw [heq] at h ⊢
    simp only [EnhanceOutcome.success.injEq] at h
    subst h
    rcases attemptFrom_success config beh _ 0 t0 r0 j hs with ⟨hij, hok, hatt, hcalls⟩
    refine ⟨j, rfl, hok, ?_, hcalls⟩
    simpa using hatt
  · rw [heq] at h
    simp at h

/-- C3 witness: with the first candidate failing and the second succeeding, the
returned result is the adapter's own, and only the two candidates up to the
success are attempted. -/
theorem C3_at_most_one_success_witness :
    (enhanceWithFallback cfgC8 behC8 "hi" optsW 0).outcome = .success resC8 ∧
    (∃ j, (enhanceWithFallback cfgC8 behC8 "hi" optsW 0).succIdx = some j ∧
      (∃ d, d < timeoutMs ∧ (behC8 j).outcome = .ok resC8 d) ∧
      (enhanceWithFallback cfgC8 behC8 "hi" optsW 0).attempted =
        (orderedCandidates cfgC8).take (j + 1) ∧
      (∀ n ∈ (enhanceWithFallback cfgC8 behC8 "hi" optsW 0).calls,
        n ∈ (enhanceWithFallback cfgC8 behC8 "hi" optsW 0).attempted)) :=
  ⟨rfl, C3_at_most_one_success cfgC8 behC8 "hi" optsW 0 resC8 rfl⟩

/-- C4: with an empty candidate list the run exits immediately with the
distinguished "no providers" error, no loop iteration runs, and no adapter's
`enhance` is invoked. -/
theorem C4_empty_candidates (config : List ProviderConfig) (beh : Nat → AttemptBehavior)
    (text : String) (opts : EnhancementOptions) (t0 : Nat) :
    orderedCandidates config = [] →
    (enhanceWithFallback config beh text opts t0).outcome = .noProviders noProvidersMsg ∧
    (enhanceWithFallback config beh text opts t0).attempted = [] ∧
    (enhanceWithFallback config beh text opts t0).calls = [] ∧
    (enhanceWithFallback config beh text opts t0).recs = [] := by
  intro h
  rcases ewf_cases config beh text opts t0 with ⟨hc, heq⟩ |
    ⟨hc, _⟩
  · rw [heq]
    exact ⟨rfl, rfl, rfl, rfl⟩
  · exact absurd h hc

/-- C4 witness: a configuration whose only provider is disabled yields no
candidates and the immediate error. -/
theorem C4_empty_candidates_witness :
    orderedCandidates cfgC4 = [] ∧
    ((enhanceWithFallback cfgC4 behAllFail "x" optsW 0).outcome =
      .noProviders noProvidersMsg ∧
     (enhanceWithFallback cfgC4 behAllFail "x" optsW 0).attempted = [] ∧
     (enhanceWithFallback cfgC4 behAllFail "x" optsW 0).calls = [] ∧
     (enhanceWithFallback cfgC4 behAllFail "x" optsW 0).recs = []) :=
  ⟨by decide, C4_empty_candidates cfgC4 behAllFail "x" optsW 0 (by decide)⟩

/-- C5: the per-attempt `Promise.race` uses the fixed 60000 ms timeout; a
never-settling `enhance` races to the failure `'Request timeout'`; and replacing
any attempt's behaviour between never-settling and throwing `'Request timeout'`
leaves every timing-free observable of the run — exit (up to timestamps and
`processingTime`), iteration order, `enhance` invocations, and the
provider/message content of the failure records — unchanged. -/
theorem C5_timeout_equivalence :
    timeoutMs = 60000 ∧
    (∀ t : Nat, raceWithTimeout t .hang = .failed "Request timeout" (t + timeoutMs)) ∧
    (∀ (config : List ProviderConfig) (beh : Nat → AttemptBehavior) (k d : Nat)
       (text : String) (opts : EnhancementOptions) (t0 t1 : Nat),
      runProj (enhanceWithFallback config (setOutcome beh k .hang) text opts t0) =
        runProj (enhanceWithFallback config
          (setOutcome beh k (.err "Request timeout" d)) text opts t1)) := by
  refine ⟨rfl, fun t => rfl, ?_⟩
  intro config beh k d text opts t0 t1
  have hbeh : ∀ j, projBeh (setOutcome beh k .hang j) =
      projBeh (setOutcome beh k (.err "Request timeout" d) j) := by
    intro j
    simp only [setOutcome, projBeh]
    by_cases hj : j = k
    · simp [hj, outcomeProjB, ite_self]
    · simp [hj]
  rcases ewf_cases config (setOutcome beh k .hang) text opts t0 with ⟨hc, heq1⟩ |
    ⟨hc, hrest1⟩
  · rcases ewf_cases config (setOutcome beh k (.err "Request timeout" d)) text opts t1 with
      ⟨hc2, heq2⟩ | ⟨hc2, _⟩
    · rw [heq1, heq2]
      rfl
    · exact absurd hc hc2
  · rcases attemptFrom_proj_congr config hbeh (orderedCandidates config) 0 t0 t1 with
      ⟨p1, p2, p3, p4⟩
    rcases ewf_cases config (setOutcome beh k (.err "Request timeout" d)) text opts t1 with
      ⟨hc2, heq2⟩ | ⟨hc2, hrest2⟩
    · exact absurd hc2 hc
    · rcases hrest1 with ⟨r, j, hs1, heq1⟩ | ⟨hs1, heq1⟩
      · rcases hrest2 with ⟨r2, j2, hs2, heq2⟩ | ⟨hs2, heq2⟩
        · rw [p4, hs2] at hs1
          simp only [Option.some.injEq, Prod.mk.injEq] at hs1
          rw [heq1, heq2]
          simp only [runProj, outcomeProj, hs1.1, p2, p3, p1]
        · rw [p4, hs2] at hs1
          cases hs1
      · rcases hrest2 with ⟨r2, j2, hs2, heq2⟩ | ⟨hs2, heq2⟩
        · rw [p4, hs2] at hs1
          cases hs1
        · have hmsg : (attemptFrom config (setOutcome beh k .hang)
                (orderedCandidates config) 0 t0).recs.map
                  (fun r => r.provider ++ ": " ++ r.errorMsg) =
              (attemptFrom config (setOutcome beh k (.err "Request timeout" d))
                (orderedCandidates config) 0 t1).recs.map
                  (fun r => r.provider ++ ": " ++ r.errorMsg) := by
            have h2 := congrArg (List.map (fun pr : String × String => pr.1 ++ ": " ++ pr.2)) p1
            rw [List.map_map, List.map_map] at h2
            exact h2
          rw [heq1, heq2]
          simp only [runProj, outcomeProj, mkComposite, p1, p2, p3, hmsg]

/-- C6 counterexample: in the chat path a non-local provider with `enabled=true`
and an empty `apiKey` IS attempted — refuting the claim that the chat path's
candidate selection is identical and that such a provider is never attempted. -/
theorem C6_chat_empty_key_attempted :
    (chatRun cfgC6 cbehC6).attempted = ["OpenRouter"] ∧
    (∀ c ∈ cfgC6, c.enabled = true ∧ c.apiKey = "" ∧ c.name ≠ localName) := by
  refine ⟨by decide, ?_⟩
  intro c hc
  rcases List.mem_cons.mp hc with rfl | h
  · refine ⟨rfl, rfl, by decide⟩
  · simp at h

/-- C6 amended: in the enhance path a provider is attempted only if some
descriptor of its name is enabled and (local or has a non-empty apiKey); in the
chat path — whose candidate selection filters only on `enabled`, with no apiKey
condition — a provider is attempted only if some descriptor of its name is
enabled. -/
theorem C6_exclusion_amended (config : List ProviderConfig) (beh : Nat → AttemptBehavior)
    (cbeh : Nat → ChatOutcome) (text : String) (opts : EnhancementOptions) (t0 : Nat) :
    (∀ n, n ∈ (enhanceWithFallback config beh text opts t0).attempted →
      ∃ c, c ∈ config ∧ c.name = n ∧ c.enabled = true ∧
        (c.name = localName ∨ c.apiKey ≠ "")) ∧
    (∀ n, n ∈ (chatRun config cbeh).attempted →
      ∃ c, c ∈ config ∧ c.name = n ∧ c.enabled = true) := by
  constructor
  · intro n hn
    have hmem : n ∈ orderedCandidates config := by
      rcases ewf_cases config beh text opts t0 with ⟨hc, heq⟩ |
        ⟨hc, ⟨r, j, hs, heq⟩ | ⟨hs, heq⟩⟩
      · rw [heq] at hn
        simp at hn
      · rw [heq] at hn
        have htake := attemptFrom_take config beh (orderedCandidates config) 0 t0
        rw [htake] at hn
        exact List.take_subset _ _ hn
      · rw [heq] at hn
        have htake := attemptFrom_take config beh (orderedCandidates config) 0 t0
        rw [htake] at hn
        exact List.take_subset _ _ hn
    exact mem_orderedCandidates hmem
  · intro n hn
    have hmem : ∃ pc, pc ∈ chatCandidates config ∧ pc.name = n := by
      by_cases hc : (chatCandidates config).isEmpty
      · simp only [chatRun] at hn
        rw [if_pos hc] at hn
        simp at hn
      · simp only [chatRun] at hn
        rw [if_neg hc] at hn
        exact chatLoop_attempted_mem cbeh _ 0 n hn
    rcases hmem with ⟨pc, hpc, hname⟩
    have hpc2 : pc ∈ config.filter (fun p => p.enabled) :=
      (sortByPriority_perm _).mem_iff.mp hpc
    rcases List.mem_filter.mp hpc2 with ⟨hmem2, hen⟩
    exact ⟨pc, hmem2, hname, hen⟩

/-- C6 amended witness: a concrete attempted provider in the enhance path has an
enabled, eligible descriptor. -/
theorem C6_exclusion_amended_witness :
    "OpenRouter" ∈ (enhanceWithFallback cfgC2 behC2 "hello" optsW 0).attempted ∧
    (∃ c, c ∈ cfgC2 ∧ c.name = "OpenRouter" ∧ c.enabled = true ∧
      (c.name = localName ∨ c.apiKey ≠ "")) :=
  ⟨by decide,
   (C6_exclusion_amended cfgC2 behC2 cbehC6 "hello" optsW 0).1 "OpenRouter" (by decide)⟩

/-- C8 counterexample: a successful orchestration whose first candidate failed
after 5 ms and whose Ollama attempt took 7 ms returns the adapter's own
`processingTime` of 7, while the whole orchestration took 12 ms from
orchestration start — refuting the claim that `processingTime` measures the
whole orchestration. -/
theorem C8_processing_time_counterexample :
    ollamaEnhance "hi" optsW (.ok "better hi") 7 = .ok resC8 ∧
    trC8.outcome = .success resC8 ∧
    resC8.processingTime = 7 ∧
    trC8.endTime - trC8.startTime = 12 ∧
    resC8.processingTime ≠ trC8.endTime - trC8.startTime :=
  ⟨rfl, rfl, rfl, by decide, by decide⟩

/-- C8 amended: the composite (all-failed) error's `processingTime` measures the
whole orchestration from orchestration start; a successful run returns the
adapter's `.ok` payload unmodified, so its `processingTime` is whatever the
adapter computed — and the modelled Ollama adapter computes it from its own
start (its call duration). -/
theorem C8_processing_time_amended (config : List ProviderConfig)
    (beh : Nat → AttemptBehavior) (text : String) (opts : EnhancementOptions) (t0 : Nat) :
    (∀ e, (enhanceWithFallback config beh text opts t0).outcome = .allFailed e →
      e.processingTime = (enhanceWithFallback config beh text opts t0).endTime -
        (enhanceWithFallback config beh text opts t0).startTime) ∧
    (∀ r, (enhanceWithFallback config beh text opts t0).outcome = .success r →
      ∃ j d, (enhanceWithFallback config beh text opts t0).succIdx = some j ∧
        d < timeoutMs ∧ (beh j).outcome = .ok r d) ∧
    (∀ (text2 : String) (opts2 : EnhancementOptions) (content : String) (dur : Nat),
      ollamaEnhance text2 opts2 (.ok content) dur =
        .ok { original := text2,
              suggestions := [{ text := jsTrim content, type := opts2.type,
                                confidence := (85 : Rat) / 100, changes := some [] }],
              provider := localName, tokensUsed := none, processingTime := dur }) := by
  refine ⟨?_, ?_, fun _ _ _ _ => rfl⟩
  · intro e h
    rcases ewf_cases config beh text opts t0 with ⟨hc, heq⟩ |
      ⟨hc, ⟨r, j, hs, heq⟩ | ⟨hs, heq⟩⟩
    · rw [heq] at h
      simp at h
    · rw [heq] at h
      simp at h
    · rw [heq] at h ⊢
      simp only [EnhanceOutcome.allFailed.injEq] at h
      rw [← h]
      rfl
  · intro r h
    rcases ewf_cases config beh text opts t0 with ⟨hc, heq⟩ |
      ⟨hc, ⟨r0, j, hs, heq⟩ | ⟨hs, heq⟩⟩
    · rw [heq] at h
      simp at h
    · rw [heq] at h ⊢
      simp only [EnhanceOutcome.success.injEq] at h
      subst h
      rcases attemptFrom_success config beh _ 0 t0 r0 j hs with ⟨hij, ⟨d, hd, hok⟩, _, _⟩
      exact ⟨j, d, rfl, hd, hok⟩
    · rw [heq] at h
      simp at h

/-- C8 amended witness: the concrete successful run returns the oracle's result
for the succeeding candidate index. -/
theorem C8_processing_time_amended_witness :
    trC8.outcome = .success resC8 ∧
    (∃ j d, trC8.succIdx = some j ∧ d < timeoutMs ∧ (behC8 j).outcome = .ok resC8 d) :=
  ⟨rfl, (C8_processing_time_amended cfgC8 behC8 "hi" optsW 0).2.1 resC8 rfl⟩

/-- C7: evidence that `containsSensitiveData` is NOT a stateless predicate: the
`g`-flagged module-level patterns carry `lastIndex` across calls, so the same
credit-card-shaped text is flagged on the first call and passes on the
immediately following call. -/
theorem C7_privacy_stateful_evidence :
    (containsSensitiveData ccInput initialPrivacyState).1 = true ∧
    (containsSensitiveData ccInput
      (containsSensitiveData ccInput initialPrivacyState).2).1 = false ∧
    (containsSensitiveData ccInput initialPrivacyState).2 ≠ initialPrivacyState := by
  refine ⟨by decide, by decide, by decide⟩

theorem getLast_filter_eq_find_reverse (p : RoleMsg → Bool) :
    ∀ (l : List RoleMsg), (l.filter p).getLast? = l.reverse.find? p := by
  intro l
  induction l with
  | nil => rfl
  | cons m rest ih =>
    rw [List.reverse_cons, List.find?_append, ← ih, List.filter_cons]
    by_cases hm : p m
    · rw [if_pos hm]
      have hfm : List.find? p [m] = some m := by simp [List.find?, hm]
      rw [hfm]
      cases hh : rest.filter p with
      | nil => simp
      | cons a as =>
        rw [List.getLast?_cons_cons]
        obtain ⟨x, hx⟩ : ∃ x, (a :: as).getLast? = some x := by
          cases hgl : (a :: as).getLast? with
          | some x => exact ⟨x, rfl⟩
          | none =>
            rw [List.getLast?_eq_none_iff] at hgl
            cases hgl
        rw [hx, Option.or_some]
    · rw [if_neg hm]
      have hfm : List.find? p [m] = none := by simp [List.find?, hm]
      rw [hfm, Option.or_none]

/-- C9: when an adapter exposes no `enhanceChat`, the chat path degrades to a
single-turn call of the adapter's plain `enhance` whose input text is exactly the
content of the last user-role message (options `type = 'rephrase'`,
`maxVariants = 1`), projecting the first suggestion; consequently the outcome
depends only on that last user message, the rest of the history being
discarded. -/
theorem C9_chat_capability_fallback (p : ChatAdapter) (messages messages2 : List RoleMsg)
    (temp : Rat) (maxTok : Nat) (h : p.enhanceChatFn = none) :
    (enhanceWithProvider p messages temp maxTok =
      match p.enhanceFn (lastUserContent messages) ⟨"rephrase", none, none, some 1⟩ with
      | .ok r => .ok (((r.suggestions.head?).map (fun s => s.text)).getD "") r.tokensUsed
      | .error e => .fail e) ∧
    (lastUserContent messages = lastUserContent messages2 →
      enhanceWithProvider p messages temp maxTok =
        enhanceWithProvider p messages2 temp maxTok) := by
  have hlast : ∀ (msgs : List RoleMsg),
      ((((msgs.filter (fun m => m.role == "user")).getLast?).map
        (fun m => m.content))).getD "" = lastUserContent msgs := by
    intro msgs
    rw [lastUserContent, getLast_filter_eq_find_reverse]
  have hmain : ∀ (msgs : List RoleMsg), enhanceWithProvider p msgs temp maxTok =
      match p.enhanceFn (lastUserContent msgs) ⟨"rephrase", none, none, some 1⟩ with
      | .ok r => .ok (((r.suggestions.head?).map (fun s => s.text)).getD "") r.tokensUsed
      | .error e => .fail e := by
    intro msgs
    simp only [enhanceWithProvider, h]
    rw [hlast msgs]
  refine ⟨hmain messages, fun hEq => ?_⟩
  rw [hmain messages, hmain messages2, hEq]

/-- C9 witness: a concrete capability-less adapter on a concrete history is
invoked with exactly the last user message `"second"`, and a history reduced to
that message alone yields the identical outcome. -/
theorem C9_chat_capability_fallback_witness :
    echoAdapter.enhanceChatFn = none ∧
    lastUserContent msgsC9 = lastUserContent msgsC9b ∧
    (enhanceWithProvider echoAdapter msgsC9 1 1000 =
      match echoAdapter.enhanceFn (lastUserContent msgsC9) ⟨"rephrase", none, none, some 1⟩ with
      | .ok r => .ok (((r.suggestions.head?).map (fun s => s.text)).getD "") r.tokensUsed
      | .error e => .fail e) ∧
    enhanceWithProvider echoAdapter msgsC9 1 1000 =
      enhanceWithProvider echoAdapter msgsC9b 1 1000 :=
  ⟨rfl, by decide,
   (C9_chat_capability_fallback echoAdapter msgsC9 msgsC9b 1 1000 rfl).1,
   (C9_chat_capability_fallback echoAdapter msgsC9 msgsC9b 1 1000 rfl).2 (by decide)⟩

theorem getElem_shiftForPromotion (old : Int) (idx : Nat) :
    ∀ (l : List ProviderConfig) (s j : Nat),
    (shiftForPromotion old idx l s)[j]? = (l[j]?).map (fun c =>
      if s + j ≠ idx ∧ 1 ≤ c.priority ∧ c.priority ≤ old then
        { c with priority := c.priority + 1 } else c) := by
  intro l
  induction l with
  | nil => intro s j; simp [shiftForPromotion]
  | cons c cs ih =>
    intro s j
    cases j with
    | zero => simp [shiftForPromotion]
    | succ j' =>
      simp only [shiftForPromotion, List.getElem?_cons_succ]
      rw [ih (s + 1) j']
      simp only [show s + 1 + j' = s + (j' + 1) from by omega]

/-- C10: `updateProvider` touches descriptors other than the named one only when
the update sets `priority` to exactly 1 and the named descriptor exists with an
old priority other than 1 — then every other descriptor with priority in
`[1, old]` has its priority incremented by one and all other fields kept, and
every other descriptor outside that band is kept whole; in every other call
(priority not set to 1, old priority already 1, or name absent) every descriptor
other than the named one is left entirely unchanged. -/
theorem C10_update_provider_frame (providers : List ProviderConfig) (name : String)
    (u : ProviderUpdate) (j : Nat) :
    (∀ i cur, providers.findIdx? (fun p => p.name == name) = some i →
      providers[i]? = some cur → u.priority = some 1 → cur.priority ≠ 1 → j ≠ i →
      (updateProvider providers name u)[j]? = (providers[j]?).map (fun c =>
        if 1 ≤ c.priority ∧ c.priority ≤ cur.priority then
          { c with priority := c.priority + 1 } else c)) ∧
    (u.priority ≠ some 1 → j < providers.length →
      (∀ i, providers.findIdx? (fun p => p.name == name) = some i → j ≠ i) →
      (updateProvider providers name u)[j]? = providers[j]?) ∧
    (∀ i cur, providers.findIdx? (fun p => p.name == name) = some i →
      providers[i]? = some cur → cur.priority = 1 → j ≠ i →
      (updateProvider providers name u)[j]? = providers[j]?) ∧
    (providers.findIdx? (fun p => p.name == name) = none → j < providers.length →
      (updateProvider providers name u)[j]? = providers[j]?) := by
  have hupd : ∀ (l : List ProviderConfig) (i : Nat), j ≠ i →
      (updateAt l i u)[j]? = l[j]? := by
    intro l i hji
    cases hli : l[i]? with
    | some c => simp [updateAt, hli, List.getElem?_set_ne (Ne.symm hji)]
    | none => simp [updateAt, hli]
  refine ⟨?_, ?_, ?_, ?_⟩
  · intro i cur hidx hcur hp1 hold hji
    have hpro : promoteIfNeeded providers i u =
        shiftForPromotion cur.priority i providers 0 := by
      simp [promoteIfNeeded, hp1, hcur, hold]
    simp only [updateProvider, hidx, hpro, hupd _ i hji]
    rw [getElem_shiftForPromotion]
    simp only [Nat.zero_add]
    cases providers[j]? with
    | none => rfl
    | some c =>
      simp [hji]
  · intro hp1 hjlen hji
    simp only [updateProvider]
    cases hidx : providers.findIdx? (fun p => p.name == name) with
    | some i =>
      have hpro : promoteIfNeeded providers i u = providers := by
        simp [promoteIfNeeded, hp1]
      simp only [hpro, hupd _ i (hji i hidx)]
    | none =>
      simp only []
      exact List.getElem?_append_left hjlen
  · intro i cur hidx hcur hold hji
    have hpro : promoteIfNeeded providers i u = providers := by
      by_cases hp1 : u.priority = some 1
      · simp [promoteIfNeeded, hp1, hcur, hold]
      · simp [promoteIfNeeded, hp1]
    simp only [updateProvider, hidx, hpro, hupd _ i hji]
  · intro hidx hjlen
    simp only [updateProvider, hidx]
    exact List.getElem?_append_left hjlen

/-- C10 witness: promoting the local backend to priority 1 in the default list
shifts the first provider (priority 1, inside the band) up by one, keeping its
other fields. -/
theorem C10_update_provider_frame_witness :
    DEFAULT_PROVIDERS.findIdx? (fun p => p.name == localName) = some 3 ∧
    DEFAULT_PROVIDERS[3]? = some ⟨localName, "", "llama2", false, 4⟩ ∧
    updC10.priority = some 1 ∧
    (updateProvider DEFAULT_PROVIDERS localName updC10)[0]? =
      (DEFAULT_PROVIDERS[0]?).map (fun c =>
        if 1 ≤ c.priority ∧ c.priority ≤ (4 : Int) then
          { c with priority := c.priority + 1 } else c) :=
  ⟨by decide, by decide, rfl,
   (C10_update_provider_frame DEFAULT_PROVIDERS localName updC10 0).1 3
     ⟨localName, "", "llama2", false, 4⟩ (by decide) (by decide) rfl (by decide) (by decide)⟩

end Explain
